import Mathlib

/-!
Verification of the explicit-bucket histogram aggregation core of an
OpenTelemetry metrics SDK (`sdk/metric/internal/aggregate/histogram.go`) and
the synchronous-instrument measurement pipeline (`sdk/metric/instrument.go`).

Modelling choices:
* `float64` boundary and measurement values are modelled as rationals (`ℚ`):
  the code only adds and compares them, and the spec's claims are about
  ordering and arithmetic, not binary rounding.
* `uint64` counters are modelled as `ℕ` (no claim depends on wrap-around).
* `attribute.Set` is an opaque comparable key, modelled as `ℕ`.
* `time.Time` values produced by `now()` are passed in explicitly as `ℕ`.
* The Go map `values` is modelled as an association list; claims proved here
  do not depend on map iteration order.
* A method that mutates its receiver is modelled as returning the new value of
  the receiver; `Aggregation`, which also returns a possibly-nil
  `metricdata.Aggregation`, returns an `Option Histogram` (Go `nil` = `none`)
  paired with the new receiver state.
-/

/-- Association-list lookup, modelling a read `m[k]` of a Go map. -/
def assocGet {β : Type} : List (Nat × β) → Nat → Option β
  | [], _ => none
  | ab :: rest, a => if ab.1 = a then some ab.2 else assocGet rest a

/-- Association-list update of a key that is present, modelling `m[k] = v`
for a key already in the Go map. -/
def assocSet {β : Type} : List (Nat × β) → Nat → β → List (Nat × β)
  | [], _, _ => []
  | ab :: rest, a, b => if ab.1 = a then (a, b) :: rest else ab :: assocSet rest a b

/-- `sort.SearchFloat64s(a, x)`: the smallest index `i` at which `a[i] >= x`,
or `len(a)` when there is none (the Go stdlib contract of the binary search,
written as a first-index scan). -/
def searchFloat64s : List ℚ → ℚ → Nat
  | [], _ => 0
  | b :: bs, v => if v ≤ b then 0 else searchFloat64s bs v + 1

/-- `sort.Float64s`: sort a slice of float64 ascending. -/
def sortFloat64s (l : List ℚ) : List ℚ := List.insertionSort (· ≤ ·) l

/-- The `buckets` struct of histogram.go: per-attribute-set accumulator. -/
structure buckets where
  counts : List Nat
  count : Nat
  sum : ℚ
  min : ℚ
  max : ℚ
deriving DecidableEq

/-- `newBuckets(n)`: buckets with `n` bins, all fields zero. -/
def newBuckets (n : Nat) : buckets :=
  { counts := List.replicate n 0, count := 0, sum := 0, min := 0, max := 0 }

/-- `buckets.bin(idx, value)`: increment bucket `idx` and the total count, add
`value` to the sum, and update min/max exactly as the Go `if`/`else if` does. -/
def buckets.bin (b : buckets) (idx : Nat) (value : ℚ) : buckets :=
  { counts := b.counts.set idx (b.counts.getD idx 0 + 1)
    count := b.count + 1
    sum := b.sum + value
    min := if value < b.min then value else b.min
    max := if value < b.min then b.max else if b.max < value then value else b.max }

/-- The `histValues` struct: sorted bounds plus the value store
(`map[attribute.Set]*buckets`, modelled as an association list). -/
structure histValues where
  bounds : List ℚ
  values : List (Nat × buckets)
deriving DecidableEq

/-- `newHistValues(bounds)`: copy and sort the boundaries, start with an
empty value store. -/
def newHistValues (bounds : List ℚ) : histValues :=
  { bounds := sortFloat64s bounds, values := [] }

/-- `histValues.Aggregate(value, attr)`: bucket index by boundary search;
find-or-create the accumulator for `attr` (a fresh one has `min = max = value`)
and `bin` the value into it. -/
def histValues.Aggregate (s : histValues) (value : ℚ) (attr : Nat) : histValues :=
  let idx := searchFloat64s s.bounds value
  match assocGet s.values attr with
  | some b => { s with values := assocSet s.values attr (b.bin idx value) }
  | none =>
      let b := { newBuckets (s.bounds.length + 1) with min := value, max := value }
      { s with values := s.values ++ [(attr, b.bin idx value)] }

/-- `metricdata.Temporality`. -/
inductive Temporality where
  | delta
  | cumulative
deriving DecidableEq

/-- `metricdata.HistogramDataPoint`. -/
structure HistogramDataPoint where
  attributes : Nat
  startTime : Nat
  time : Nat
  count : Nat
  bounds : List ℚ
  bucketCounts : List Nat
  sum : ℚ
  min : Option ℚ
  max : Option ℚ
deriving DecidableEq

/-- `metricdata.Histogram`. -/
structure Histogram where
  temporality : Temporality
  dataPoints : List HistogramDataPoint
deriving DecidableEq

/-- The `deltaHistogram` struct (embedding `*histValues`). -/
structure deltaHistogram where
  hist : histValues
  noMinMax : Bool
  start : Nat
deriving DecidableEq

/-- `newDeltaHistogram(cfg)` with construction time `t0` standing for `now()`. -/
def newDeltaHistogram (bounds : List ℚ) (noMinMax : Bool) (t0 : Nat) : deltaHistogram :=
  { hist := newHistValues bounds, noMinMax := noMinMax, start := t0 }

/-- The promoted `Aggregate` method of `deltaHistogram`. -/
def deltaHistogram.Aggregate (s : deltaHistogram) (value : ℚ) (attr : Nat) : deltaHistogram :=
  { s with hist := s.hist.Aggregate value attr }

/-- One data point of a snapshot, as both `Aggregation` methods build it.
Note `bucketCounts := b.counts` in the delta case hands out the accumulator's
own slice; the pure model cannot distinguish that from a copy, the
reference-aware model below can. -/
def histDataPoint (a : Nat) (b : buckets) (st t : Nat) (bounds : List ℚ)
    (noMinMax : Bool) (bucketCounts : List Nat) : HistogramDataPoint :=
  { attributes := a
    startTime := st
    time := t
    count := b.count
    bounds := bounds
    bucketCounts := bucketCounts
    sum := b.sum
    min := if noMinMax then none else some b.min
    max := if noMinMax then none else some b.max }

/-- `deltaHistogram.Aggregation()`: `nil` (here `none`) when the store is
empty; otherwise report every entry with window `[start, t)`, delete every
entry, and advance `start` to `t`. -/
def deltaHistogram.Aggregation (s : deltaHistogram) (t : Nat) :
    Option Histogram × deltaHistogram :=
  if s.hist.values.length = 0 then (none, s)
  else
    (some { temporality := Temporality.delta
            dataPoints := s.hist.values.map fun ab =>
              histDataPoint ab.1 ab.2 s.start t s.hist.bounds s.noMinMax ab.2.counts },
     { s with hist := { s.hist with values := [] }, start := t })

/-- The `cumulativeHistogram` struct (embedding `*histValues`). -/
structure cumulativeHistogram where
  hist : histValues
  noMinMax : Bool
  start : Nat
deriving DecidableEq

/-- `newCumulativeHistogram(cfg)` with construction time `t0` for `now()`. -/
def newCumulativeHistogram (bounds : List ℚ) (noMinMax : Bool) (t0 : Nat) : cumulativeHistogram :=
  { hist := newHistValues bounds, noMinMax := noMinMax, start := t0 }

/-- The promoted `Aggregate` method of `cumulativeHistogram`. -/
def cumulativeHistogram.Aggregate (s : cumulativeHistogram) (value : ℚ) (attr : Nat) :
    cumulativeHistogram :=
  { s with hist := s.hist.Aggregate value attr }

/-- `cumulativeHistogram.Aggregation()`: `nil` (here `none`) when the store is
empty; otherwise report every entry with window `[start, t)` — the per-entry
`counts` slice is copied (`make` + `copy` in the source) — and leave the
receiver untouched: no entry is deleted and `start` does not advance. -/
def cumulativeHistogram.Aggregation (s : cumulativeHistogram) (t : Nat) :
    Option Histogram × cumulativeHistogram :=
  if s.hist.values.length = 0 then (none, s)
  else
    (some { temporality := Temporality.cumulative
            dataPoints := s.hist.values.map fun ab =>
              histDataPoint ab.1 ab.2 s.start t s.hist.bounds s.noMinMax ab.2.counts },
     s)

/-- Fold a list of `(value, attr)` calls through `histValues.Aggregate`. -/
def aggFold (s : histValues) (calls : List (ℚ × Nat)) : histValues :=
  calls.foldl (fun st c => st.Aggregate c.1 c.2) s

/-- Fold a list of `(value, attr)` calls through `deltaHistogram.Aggregate`. -/
def deltaAggFold (s : deltaHistogram) (calls : List (ℚ × Nat)) : deltaHistogram :=
  calls.foldl (fun st c => st.Aggregate c.1 c.2) s

-- ## Boundary search lemmas (claim C1)

theorem searchFloat64s_le_length (v : ℚ) : ∀ l : List ℚ, searchFloat64s l v ≤ l.length := by
  intro l
  induction l with
  | nil => simp [searchFloat64s]
  | cons b bs ih =>
      by_cases h : v ≤ b
      · simp [searchFloat64s, h]
      · simpa [searchFloat64s, h] using ih

theorem searchFloat64s_sorted (v : ℚ) :
    ∀ l : List ℚ, l.Sorted (· ≤ ·) →
      searchFloat64s l v = l.countP (fun b => decide (b < v)) := by
  intro l
  induction l with
  | nil => intro _; simp [searchFloat64s]
  | cons b bs ih =>
      intro hs
      rw [List.sorted_cons] at hs
      by_cases h : v ≤ b
      · have hb : ¬ b < v := not_lt.mpr h
        have htail : bs.countP (fun x => decide (x < v)) = 0 := by
          rw [List.countP_eq_zero]
          intro x hx
          have hbx : b ≤ x := hs.1 x hx
          simp only [decide_eq_true_eq]
          exact not_lt.mpr (h.trans hbx)
        simp [searchFloat64s, h, List.countP_cons, hb, htail]
      · have hb : b < v := lt_of_not_le h
        simp [searchFloat64s, h, List.countP_cons, hb, ih hs.2]

theorem sortFloat64s_perm (l : List ℚ) : (sortFloat64s l).Perm l :=
  List.perm_insertionSort (· ≤ ·) l

theorem sortFloat64s_sorted (l : List ℚ) : (sortFloat64s l).Sorted (· ≤ ·) :=
  List.sorted_insertionSort (· ≤ ·) l

theorem searchFloat64s_newHistValues (bounds : List ℚ) (v : ℚ) :
    searchFloat64s (newHistValues bounds).bounds v =
      bounds.countP (fun b => decide (b < v)) := by
  have h1 := searchFloat64s_sorted v (sortFloat64s bounds) (sortFloat64s_sorted bounds)
  have h2 := (sortFloat64s_perm bounds).countP_eq (fun b => decide (b < v))
  simpa [newHistValues] using h1.trans h2

theorem length_newHistValues_bounds (bounds : List ℚ) :
    (newHistValues bounds).bounds.length = bounds.length := by
  simpa [newHistValues] using (sortFloat64s_perm bounds).length_eq

/-- C1: A histogram aggregator built from any boundary sequence maps a
measured value `v` to bucket index `(count of boundaries strictly less than
v)` — `Aggregate` bins a fresh attribute set's value at exactly that index,
a value equal to a boundary falling in the lower bucket — and for boundaries
`[0, 5, 10]` the values `-1, 0, 0.1, 5, 5.1, 10, 11` map to bucket indices
`0, 0, 1, 1, 2, 2, 3`. -/
theorem aggregate_bucket_index (bounds : List ℚ) (v : ℚ) (a : Nat) :
    searchFloat64s (newHistValues bounds).bounds v =
        bounds.countP (fun b => decide (b < v)) ∧
    assocGet ((newHistValues bounds).Aggregate v a).values a =
        some (buckets.bin
          { counts := List.replicate (bounds.length + 1) 0
            count := 0, sum := 0, min := v, max := v }
          (bounds.countP (fun b => decide (b < v))) v) ∧
    ([(-1 : ℚ), 0, 1/10, 5, 51/10, 10, 11].map
        (searchFloat64s (newHistValues [0, 5, 10]).bounds)) = [0, 0, 1, 1, 2, 2, 3] := by
  refine ⟨searchFloat64s_newHistValues bounds v, ?_, ?_⟩
  · have hidx := searchFloat64s_newHistValues bounds v
    have hlen := length_newHistValues_bounds bounds
    simp only [histValues.Aggregate, newHistValues, assocGet, hlen] at *
    simp [assocGet, newBuckets, hidx, hlen]
  · have hb : (newHistValues [0, 5, 10] : histValues).bounds = [0, 5, 10] := by
      simp only [newHistValues, sortFloat64s]
      decide
    rw [hb]
    norm_num [searchFloat64s]

-- ## Count invariant (claim C6)

theorem sum_set_getD_add_one : ∀ (l : List Nat) (i : Nat), i < l.length →
    (l.set i (l[i]?.getD 0 + 1)).sum = l.sum + 1 := by
  intro l
  induction l with
  | nil => intro i h; simp at h
  | cons x xs ih =>
      intro i h
      cases i with
      | zero => simp [List.sum_cons]; omega
      | succ j =>
          have hj : j < xs.length := by simpa using h
          simp [List.sum_cons, List.getElem?_cons_succ, List.set_cons_succ, ih j hj]
          omega

theorem mem_assocSet {β : Type} : ∀ (l : List (Nat × β)) (a : Nat) (b : β) (x : Nat × β),
    x ∈ assocSet l a b → x ∈ l ∨ x = (a, b) := by
  intro l a b
  induction l with
  | nil => intro x hx; simp [assocSet] at hx
  | cons ab rest ih =>
      intro x hx
      by_cases h : ab.1 = a
      · simp only [assocSet, if_pos h, List.mem_cons] at hx
        rcases hx with hx | hx
        · right; exact hx
        · left; exact List.mem_cons_of_mem _ hx
      · simp only [assocSet, if_neg h, List.mem_cons] at hx
        rcases hx with hx | hx
        · left; simp [hx]
        · rcases ih x hx with h1 | h1
          · left; exact List.mem_cons_of_mem _ h1
          · right; exact h1

theorem assocGet_mem {β : Type} : ∀ (l : List (Nat × β)) (a : Nat) (b : β),
    assocGet l a = some b → (a, b) ∈ l := by
  intro l a b
  induction l with
  | nil => intro h; simp [assocGet] at h
  | cons ab rest ih =>
      intro h
      by_cases hh : ab.1 = a
      · simp only [assocGet, if_pos hh] at h
        have hb : ab.2 = b := Option.some.inj h
        have hab : ab = (a, b) := by
          cases ab
          simp_all
        rw [← hab]
        exact List.mem_cons_self _ _
      · simp only [assocGet, if_neg hh] at h
        exact List.mem_cons_of_mem _ (ih h)

theorem aggregate_bounds (s : histValues) (v : ℚ) (a : Nat) :
    (s.Aggregate v a).bounds = s.bounds := by
  unfold histValues.Aggregate
  cases assocGet s.values a <;> simp

/-- The invariant of claim C6, together with the well-formedness fact (bucket
slice length) that sustains it. -/
def countInv (s : histValues) : Prop :=
  ∀ ab ∈ s.values, ab.2.counts.length = s.bounds.length + 1 ∧ ab.2.count = ab.2.counts.sum

theorem bin_countInv {L : Nat} (b : buckets) (idx : Nat) (v : ℚ)
    (hlen : b.counts.length = L) (hidx : idx < L) (hc : b.count = b.counts.sum) :
    (b.bin idx v).counts.length = L ∧ (b.bin idx v).count = (b.bin idx v).counts.sum := by
  constructor
  · simp [buckets.bin, hlen]
  · have hs := sum_set_getD_add_one b.counts idx (by omega)
    simp [buckets.bin, List.getD_eq_getElem?_getD, hs, hc]

theorem aggregate_countInv (s : histValues) (v : ℚ) (a : Nat) (h : countInv s) :
    countInv (s.Aggregate v a) := by
  have hidx : searchFloat64s s.bounds v < s.bounds.length + 1 := by
    have := searchFloat64s_le_length v s.bounds
    omega
  intro ab hab
  rw [aggregate_bounds]
  unfold histValues.Aggregate at hab
  cases hg : assocGet s.values a with
  | some b =>
      rw [hg] at hab
      simp only at hab
      rcases mem_assocSet _ _ _ _ hab with hm | hm
      · exact h ab hm
      · have hb := h (a, b) (assocGet_mem _ _ _ hg)
        subst hm
        exact bin_countInv b _ v hb.1 hidx hb.2
  | none =>
      rw [hg] at hab
      simp only [List.mem_append, List.mem_singleton] at hab
      rcases hab with hm | hm
      · exact h ab hm
      · subst hm
        refine bin_countInv _ _ v ?_ hidx ?_
        · simp [newBuckets]
        · simp [newBuckets]

theorem aggFold_countInv_of (calls : List (ℚ × Nat)) :
    ∀ s : histValues, countInv s → countInv (aggFold s calls) := by
  induction calls with
  | nil => intro s h; simpa [aggFold] using h
  | cons c rest ih =>
      intro s h
      have h1 : countInv (s.Aggregate c.1 c.2) := aggregate_countInv s c.1 c.2 h
      simpa [aggFold, List.foldl_cons] using ih _ h1

/-- C6: after any sequence of `Aggregate` calls starting from a fresh
histogram value store, every bucket accumulator satisfies
`count = sum(counts)` (every prefix of a call sequence is itself such a
sequence, so the invariant holds after every call). -/
theorem count_eq_sum_counts (bounds : List ℚ) (calls : List (ℚ × Nat)) :
    (aggFold (newHistValues bounds) calls).values.all
      (fun ab => ab.2.count == ab.2.counts.sum) = true := by
  rw [List.all_eq_true]
  intro ab hab
  have hinv : countInv (newHistValues bounds) := by
    intro x hx
    simp [newHistValues] at hx
  have := aggFold_countInv_of calls (newHistValues bounds) hinv ab hab
  simpa using this.2

-- ## Min/max extrema (claim C7)

theorem aggregate_singleton (s : histValues) (a : Nat) (b : buckets) (v : ℚ)
    (h : s.values = [(a, b)]) :
    (s.Aggregate v a).values = [(a, b.bin (searchFloat64s s.bounds v) v)] := by
  unfold histValues.Aggregate
  rw [h]
  simp [assocGet, assocSet]

theorem bin_min (b : buckets) (idx : Nat) (v : ℚ) : (b.bin idx v).min = min b.min v := by
  simp only [buckets.bin]
  rcases lt_or_le v b.min with h | h
  · rw [if_pos h, min_eq_right h.le]
  · rw [if_neg (not_lt.mpr h), min_eq_left h]

theorem bin_max (b : buckets) (idx : Nat) (v : ℚ) (hmm : b.min ≤ b.max) :
    (b.bin idx v).max = max b.max v := by
  simp only [buckets.bin]
  rcases lt_or_le v b.min with h | h
  · rw [if_pos h, max_eq_left (h.le.trans hmm)]
  · rw [if_neg (not_lt.mpr h)]
    rcases lt_or_le b.max v with h2 | h2
    · rw [if_pos h2, max_eq_right h2.le]
    · rw [if_neg (not_lt.mpr h2), max_eq_left h2]

theorem aggFold_singleton_min_max : ∀ (vs : List ℚ) (s : histValues) (a : Nat) (b : buckets),
    s.values = [(a, b)] → b.min ≤ b.max →
    ∃ b2 : buckets, (aggFold s (vs.map fun x => (x, a))).values = [(a, b2)] ∧
      b2.min = vs.foldl min b.min ∧ b2.max = vs.foldl max b.max ∧ b2.min ≤ b2.max := by
  intro vs
  induction vs with
  | nil =>
      intro s a b h hmm
      exact ⟨b, by simpa [aggFold] using h, rfl, rfl, hmm⟩
  | cons x xs ih =>
      intro s a b h hmm
      have hstep := aggregate_singleton s a b x h
      have hmin := bin_min b (searchFloat64s s.bounds x) x
      have hmax := bin_max b (searchFloat64s s.bounds x) x hmm
      have hmm2 : (b.bin (searchFloat64s s.bounds x) x).min ≤
          (b.bin (searchFloat64s s.bounds x) x).max := by
        rw [hmin, hmax]
        exact le_trans (min_le_left _ _) (le_trans hmm (le_max_left _ _))
      obtain ⟨b2, h1, h2, h3, h4⟩ := ih (s.Aggregate x a) a _ hstep hmm2
      refine ⟨b2, ?_, ?_, ?_, h4⟩
      · simpa [aggFold, List.foldl_cons] using h1
      · rw [h2, hmin, List.foldl_cons]
      · rw [h3, hmax, List.foldl_cons]

theorem aggregate_fresh (s : histValues) (a : Nat) (v : ℚ) (h : s.values = []) :
    (s.Aggregate v a).values =
      [(a, buckets.bin
        { counts := List.replicate (s.bounds.length + 1) 0
          count := 0, sum := 0, min := v, max := v }
        (searchFloat64s s.bounds v) v)] := by
  unfold histValues.Aggregate
  rw [h]
  simp [assocGet, newBuckets]

/-- C7: aggregating a non-empty value sequence `v :: vs` under one attribute
set yields an accumulator whose `min`/`max` are the true minimum and maximum
of the observed values; both are initialized to the first observed value, so
a single-value sequence yields `min = max = that value` (the `vs = []` case). -/
theorem min_max_extrema (bounds : List ℚ) (a : Nat) (v : ℚ) (vs : List ℚ) :
    ∃ b : buckets,
      (aggFold (newHistValues bounds) ((v :: vs).map fun x => (x, a))).values = [(a, b)] ∧
      b.min = vs.foldl min v ∧ b.max = vs.foldl max v := by
  have hfresh := aggregate_fresh (newHistValues bounds) a v (by simp [newHistValues])
  have hmin1 : (buckets.bin
      { counts := List.replicate ((newHistValues bounds).bounds.length + 1) 0
        count := 0, sum := 0, min := v, max := v }
      (searchFloat64s (newHistValues bounds).bounds v) v).min = v := by
    rw [bin_min]; simp
  have hmax1 : (buckets.bin
      { counts := List.replicate ((newHistValues bounds).bounds.length + 1) 0
        count := 0, sum := 0, min := v, max := v }
      (searchFloat64s (newHistValues bounds).bounds v) v).max = v := by
    rw [bin_max _ _ _ (le_refl v)]; simp
  obtain ⟨b2, h1, h2, h3, _⟩ := aggFold_singleton_min_max vs
    ((newHistValues bounds).Aggregate v a) a _ hfresh (by rw [hmin1, hmax1])
  refine ⟨b2, ?_, ?_, ?_⟩
  · simpa [aggFold, List.foldl_cons] using h1
  · rw [h2, hmin1]
  · rw [h3, hmax1]

-- ## Empty-store snapshots (claim C2)

/-- C2 counterexample: with nothing accumulated, `Aggregation` returns the Go
`nil` interface value (modelled `none`) — not an empty, non-null collection —
for a delta aggregator and for a cumulative one alike. -/
theorem aggregation_empty_nil_cex :
    ((newDeltaHistogram [0] false 0).Aggregation 1).1 = none ∧
    ((newCumulativeHistogram [0] false 0).Aggregation 1).1 = none :=
  ⟨rfl, rfl⟩

/-- C2 amended: for every delta or cumulative histogram aggregator whose value
store holds no accumulated data, `Aggregation` returns the nil aggregation
(`none`) — not an empty collection — leaves the aggregator unchanged, and
signals no error (the operation has no error result at all). -/
theorem aggregation_empty_returns_nil (d : deltaHistogram) (c : cumulativeHistogram)
    (t u : Nat) (hd : d.hist.values = []) (hc : c.hist.values = []) :
    d.Aggregation t = (none, d) ∧ c.Aggregation u = (none, c) := by
  constructor
  · simp [deltaHistogram.Aggregation, hd]
  · simp [cumulativeHistogram.Aggregation, hc]

theorem aggregation_empty_returns_nil_witness :
    (newDeltaHistogram [0] false 0).Aggregation 1 = (none, newDeltaHistogram [0] false 0) ∧
    (newCumulativeHistogram [0] false 0).Aggregation 1 =
      (none, newCumulativeHistogram [0] false 0) :=
  aggregation_empty_returns_nil _ _ 1 1 rfl rfl

-- ## Cumulative persistence (claim C5)

theorem cumulative_aggregation_state (c : cumulativeHistogram) (t : Nat) :
    (c.Aggregation t).2 = c := by
  rw [cumulativeHistogram.Aggregation]
  split <;> rfl

theorem cumulative_two_values (bounds : List ℚ) (a : Nat) (v1 v2 : ℚ) :
    ∃ b : buckets,
      (((newHistValues bounds).Aggregate v1 a).Aggregate v2 a).values = [(a, b)] ∧
      b.count = 2 ∧ b.sum = v1 + v2 := by
  have h1 := aggregate_fresh (newHistValues bounds) a v1 rfl
  have h2 := aggregate_singleton _ a _ v2 h1
  refine ⟨_, h2, rfl, ?_⟩
  simp [buckets.bin]

/-- C5: a cumulative histogram aggregator's snapshot never removes value-store
entries and never advances `start` (the whole receiver is returned unchanged);
`start` as reported is the construction time; and after aggregating `v1`,
snapshotting, then aggregating `v2` on the same attribute set, the second
snapshot's data point for that set has `count = 2` and `sum = v1 + v2`,
reflecting both values. -/
theorem cumulative_persistence (bounds : List ℚ) (nmm : Bool) (t0 t1 t2 a : Nat) (v1 v2 : ℚ) :
    (∀ (c : cumulativeHistogram) (t : Nat), (c.Aggregation t).2 = c) ∧
    (∀ (c : cumulativeHistogram) (v : ℚ) (x : Nat), (c.Aggregate v x).start = c.start) ∧
    (∃ h : Histogram,
      (((((newCumulativeHistogram bounds nmm t0).Aggregate v1 a).Aggregation t1).2.Aggregate
          v2 a).Aggregation t2).1 = some h ∧
      ∃ dp ∈ h.dataPoints,
        dp.attributes = a ∧ dp.count = 2 ∧ dp.sum = v1 + v2 ∧ dp.startTime = t0) := by
  refine ⟨cumulative_aggregation_state, fun _ _ _ => rfl, ?_⟩
  rw [cumulative_aggregation_state]
  obtain ⟨b, hval, hcount, hsum⟩ := cumulative_two_values bounds a v1 v2
  have hvals : (((newCumulativeHistogram bounds nmm t0).Aggregate v1 a).Aggregate
      v2 a).hist.values = [(a, b)] := hval
  rw [cumulativeHistogram.Aggregation, hvals]
  rw [if_neg (by simp)]
  refine ⟨_, rfl, ?_⟩
  exact ⟨_, List.mem_map.mpr ⟨(a, b), by simp, rfl⟩, rfl, hcount, hsum, rfl⟩

-- ## Delta reset (claim C4)

theorem map_fst_assocSet {β : Type} : ∀ (l : List (Nat × β)) (a : Nat) (b : β),
    (assocSet l a b).map Prod.fst = l.map Prod.fst := by
  intro l a b
  induction l with
  | nil => simp [assocSet]
  | cons ab rest ih =>
      by_cases h : ab.1 = a
      · simp [assocSet, h]
      · simp [assocSet, h, ih]

theorem aggregate_keys_not_mem (s : histValues) (v : ℚ) (a x : Nat)
    (hax : a ≠ x) (hx : x ∉ s.values.map Prod.fst) :
    x ∉ (s.Aggregate v a).values.map Prod.fst := by
  unfold histValues.Aggregate
  cases hg : assocGet s.values a with
  | some b => simpa [map_fst_assocSet] using hx
  | none =>
      simp only [List.map_append, List.map_cons, List.map_nil, List.mem_append,
        List.mem_singleton]
      rintro (h | h)
      · exact hx h
      · exact hax h.symm

theorem deltaAggFold_keys_not_mem (x : Nat) : ∀ (calls : List (ℚ × Nat)) (s : deltaHistogram),
    (∀ c ∈ calls, c.2 ≠ x) → x ∉ s.hist.values.map Prod.fst →
    x ∉ (deltaAggFold s calls).hist.values.map Prod.fst := by
  intro calls
  induction calls with
  | nil => intro s _ h; simpa [deltaAggFold] using h
  | cons c rest ih =>
      intro s hc h
      have h1 : x ∉ (s.Aggregate c.1 c.2).hist.values.map Prod.fst :=
        aggregate_keys_not_mem s.hist c.1 c.2 x (hc c (by simp)) h
      simpa [deltaAggFold, List.foldl_cons] using
        ih (s.Aggregate c.1 c.2) (fun d hd => hc d (by simp [hd])) h1

theorem delta_aggregation_dp_attr_mem (s : deltaHistogram) (t : Nat) (h2 : Histogram)
    (hh : (s.Aggregation t).1 = some h2) :
    ∀ dp ∈ h2.dataPoints, dp.attributes ∈ s.hist.values.map Prod.fst := by
  rw [deltaHistogram.Aggregation] at hh
  by_cases hc : s.hist.values.length = 0
  · rw [if_pos hc] at hh
    cases hh
  · rw [if_neg hc] at hh
    simp only at hh
    injection hh with hh
    subst hh
    intro dp hdp
    obtain ⟨ab, hab, rfl⟩ := List.mem_map.mp hdp
    exact List.mem_map.mpr ⟨ab, hab, rfl⟩

/-- C4 amended: a delta histogram snapshot reports each data point with window
`[start, t)`, removes every reported attribute-set entry from the value store,
and advances `start` to the snapshot time; a second immediate snapshot with no
intervening `Aggregate` calls returns the nil aggregation (`none` — not an
empty collection, and not an error); and an attribute set never re-observed
never appears in any later snapshot. -/
theorem delta_reset (s : deltaHistogram) (t t2 t3 x : Nat) (calls : List (ℚ × Nat))
    (hne : s.hist.values ≠ []) (hx : ∀ c ∈ calls, c.2 ≠ x) :
    ∃ h : Histogram, (s.Aggregation t).1 = some h ∧
      (∀ dp ∈ h.dataPoints, dp.startTime = s.start ∧ dp.time = t) ∧
      (s.Aggregation t).2.hist.values = [] ∧
      (s.Aggregation t).2.start = t ∧
      ((s.Aggregation t).2.Aggregation t2).1 = none ∧
      ∀ h2 : Histogram,
        ((deltaAggFold (s.Aggregation t).2 calls).Aggregation t3).1 = some h2 →
        ∀ dp ∈ h2.dataPoints, dp.attributes ≠ x := by
  have hlen : ¬ s.hist.values.length = 0 := fun h => hne (List.length_eq_zero.mp h)
  have hsnap : s.Aggregation t =
      (some { temporality := Temporality.delta
              dataPoints := s.hist.values.map fun ab =>
                histDataPoint ab.1 ab.2 s.start t s.hist.bounds s.noMinMax ab.2.counts },
       { s with hist := { s.hist with values := [] }, start := t }) := by
    rw [deltaHistogram.Aggregation, if_neg hlen]
  refine ⟨_, by rw [hsnap], ?_, by rw [hsnap], by rw [hsnap], ?_, ?_⟩
  · intro dp hdp
    obtain ⟨ab, _, rfl⟩ := List.mem_map.mp hdp
    exact ⟨rfl, rfl⟩
  · rw [hsnap]
    rfl
  · intro h2 hh2 dp hdp
    have hkeys : x ∉ (deltaAggFold (s.Aggregation t).2 calls).hist.values.map Prod.fst := by
      refine deltaAggFold_keys_not_mem x calls _ hx ?_
      rw [hsnap]
      simp
    have := delta_aggregation_dp_attr_mem _ t3 h2 hh2 dp hdp
    intro hcon
    exact hkeys (hcon ▸ this)

/-- A concrete delta aggregator holding one accumulated value, for the
witness below. -/
def deltaEx : deltaHistogram := (newDeltaHistogram [0] false 0).Aggregate 1 7

theorem delta_reset_witness :
    (deltaEx.Aggregation 1).2.hist.values = [] ∧ (deltaEx.Aggregation 1).2.start = 1 ∧
    ((deltaEx.Aggregation 1).2.Aggregation 2).1 = none := by
  obtain ⟨h, -, -, h3, h4, h5, -⟩ :=
    delta_reset deltaEx 1 2 3 9 [] (List.cons_ne_nil _ _) (by simp)
  exact ⟨h3, h4, h5⟩

/-- C4 counterexample: after one delta snapshot, a second immediate snapshot
with no intervening `Aggregate` calls returns the Go `nil` interface value
(`none`), which is not an empty collection. -/
theorem delta_second_snapshot_nil_cex :
    ((((newDeltaHistogram [0] false 0).Aggregate 1 7).Aggregation 1).2.Aggregation 2).1 =
      none := rfl

-- ## Reference-aware model of the snapshot copy discipline (claim C3)

/-- A heap of `[]uint64` slices: a slice reference is an index into `arrs`.
Go slice headers are references into such a heap; this model distinguishes
handing a slice out (same index) from copying it (a fresh index), which the
pure model above cannot. -/
structure SliceHeap where
  arrs : List (List Nat)
deriving DecidableEq

/-- Read the contents of slice `r`. -/
def SliceHeap.get (h : SliceHeap) (r : Nat) : List Nat := h.arrs.getD r []

/-- Overwrite the contents of slice `r` (a writer mutating through a
reference). -/
def SliceHeap.put (h : SliceHeap) (r : Nat) (v : List Nat) : SliceHeap :=
  ⟨h.arrs.set r v⟩

/-- `make([]uint64, ...)` (or `make` + `copy`): a fresh slice; its reference
is the previous heap size. -/
def SliceHeap.alloc (h : SliceHeap) (v : List Nat) : SliceHeap × Nat :=
  (⟨h.arrs ++ [v]⟩, h.arrs.length)

theorem SliceHeap.get_put_ne (h : SliceHeap) (r r' : Nat) (v : List Nat) (hne : r' ≠ r) :
    (h.put r v).get r' = h.get r' := by
  simp [SliceHeap.get, SliceHeap.put, List.getD_eq_getElem?_getD,
    List.getElem?_set_ne (Ne.symm hne)]

theorem SliceHeap.get_append (h : SliceHeap) (r : Nat) (ext : List (List Nat))
    (hr : r < h.arrs.length) :
    (SliceHeap.mk (h.arrs ++ ext)).get r = h.get r := by
  simp [SliceHeap.get, List.getD_eq_getElem?_getD, List.getElem?_append, hr]

/-- The `buckets` struct with its `counts` slice as a heap reference. -/
structure bucketsR where
  countsRef : Nat
  count : Nat
  sum : ℚ
  min : ℚ
  max : ℚ
deriving DecidableEq

/-- `histValues` in the reference-aware model. -/
structure histValuesR where
  bounds : List ℚ
  values : List (Nat × bucketsR)
deriving DecidableEq

/-- `newHistValues` in the reference-aware model. -/
def newHistValuesR (bounds : List ℚ) : histValuesR :=
  { bounds := sortFloat64s bounds, values := [] }

/-- `buckets.bin` in the reference-aware model: `b.counts[idx]++` writes
through the reference; the scalar fields update as in the pure model. -/
def binR (h : SliceHeap) (b : bucketsR) (idx : Nat) (value : ℚ) : SliceHeap × bucketsR :=
  (h.put b.countsRef
      ((h.get b.countsRef).set idx ((h.get b.countsRef).getD idx 0 + 1)),
   { b with count := b.count + 1
            sum := b.sum + value
            min := if value < b.min then value else b.min
            max := if value < b.min then b.max
                   else if b.max < value then value else b.max })

/-- `histValues.Aggregate` in the reference-aware model: a fresh attribute set
allocates a fresh zeroed counts slice. -/
def AggregateR (h : SliceHeap) (s : histValuesR) (value : ℚ) (attr : Nat) :
    SliceHeap × histValuesR :=
  let idx := searchFloat64s s.bounds value
  match assocGet s.values attr with
  | some b =>
      let hb := binR h b idx value
      (hb.1, { s with values := assocSet s.values attr hb.2 })
  | none =>
      let al := h.alloc (List.replicate (s.bounds.length + 1) 0)
      let b0 : bucketsR :=
        { countsRef := al.2, count := 0, sum := 0, min := value, max := value }
      let hb := binR al.1 b0 idx value
      (hb.1, { s with values := s.values ++ [(attr, hb.2)] })

/-- `metricdata.HistogramDataPoint` with `BucketCounts` as a heap reference. -/
structure HistogramDataPointR where
  attributes : Nat
  startTime : Nat
  time : Nat
  count : Nat
  bounds : List ℚ
  bucketCountsRef : Nat
  sum : ℚ
  min : Option ℚ
  max : Option ℚ
deriving DecidableEq

/-- `metricdata.Histogram` in the reference-aware model. -/
structure HistogramR where
  temporality : Temporality
  dataPoints : List HistogramDataPointR
deriving DecidableEq

/-- Build one data point carrying the counts slice reference `ref`. -/
def histDataPointR (a : Nat) (b : bucketsR) (st t : Nat) (bounds : List ℚ)
    (noMinMax : Bool) (ref : Nat) : HistogramDataPointR :=
  { attributes := a
    startTime := st
    time := t
    count := b.count
    bounds := bounds
    bucketCountsRef := ref
    sum := b.sum
    min := if noMinMax then none else some b.min
    max := if noMinMax then none else some b.max }

/-- `deltaHistogram` in the reference-aware model. -/
structure deltaHistogramR where
  hist : histValuesR
  noMinMax : Bool
  start : Nat
deriving DecidableEq

/-- `deltaHistogram.Aggregation` in the reference-aware model: the data point
carries `BucketCounts: b.counts` — the accumulator's own slice reference,
not a copy (the entry is then deleted from the store). -/
def deltaHistogramR.Aggregation (s : deltaHistogramR) (hp : SliceHeap) (t : Nat) :
    Option HistogramR × deltaHistogramR × SliceHeap :=
  if s.hist.values.length = 0 then (none, s, hp)
  else
    (some { temporality := Temporality.delta
            dataPoints := s.hist.values.map fun ab =>
              histDataPointR ab.1 ab.2 s.start t s.hist.bounds s.noMinMax ab.2.countsRef },
     { s with hist := { s.hist with values := [] }, start := t }, hp)

/-- `cumulativeHistogram` in the reference-aware model. -/
structure cumulativeHistogramR where
  hist : histValuesR
  noMinMax : Bool
  start : Nat
deriving DecidableEq

/-- The per-entry body of `cumulativeHistogram.Aggregation`'s loop:
`counts := make(...); copy(counts, b.counts)` allocates a fresh slice per
entry and the data point carries the fresh reference. -/
def snapCopy (st t : Nat) (nmm : Bool) (bounds : List ℚ) :
    SliceHeap → List (Nat × bucketsR) → SliceHeap × List HistogramDataPointR
  | h, [] => (h, [])
  | h, ab :: rest =>
      let al := h.alloc (h.get ab.2.countsRef)
      let r := snapCopy st t nmm bounds al.1 rest
      (r.1, histDataPointR ab.1 ab.2 st t bounds nmm al.2 :: r.2)

/-- `cumulativeHistogram.Aggregation` in the reference-aware model: entries
and `start` are untouched; each reported counts slice is a fresh copy. -/
def cumulativeHistogramR.Aggregation (s : cumulativeHistogramR) (hp : SliceHeap) (t : Nat) :
    Option HistogramR × cumulativeHistogramR × SliceHeap :=
  if s.hist.values.length = 0 then (none, s, hp)
  else
    let r := snapCopy s.start t s.noMinMax s.hist.bounds hp s.hist.values
    (some { temporality := Temporality.cumulative, dataPoints := r.2 }, s, r.1)

/-- Fold `AggregateR` over a list of `(value, attr)` calls. -/
def aggFoldR (hp : SliceHeap) (s : histValuesR) (calls : List (ℚ × Nat)) :
    SliceHeap × histValuesR :=
  calls.foldl (fun p c => AggregateR p.1 p.2 c.1 c.2) (hp, s)

/-- The internal accumulator state an observer can read back: each attribute
set's bucket-count slice contents. -/
def obsCounts (hp : SliceHeap) (s : histValuesR) : List (Nat × List Nat) :=
  s.values.map fun ab => (ab.1, hp.get ab.2.countsRef)

theorem aggregateR_untouched (hp : SliceHeap) (s : histValuesR) (v : ℚ) (a r : Nat)
    (hr : r < hp.arrs.length) (hmem : ∀ ab ∈ s.values, ab.2.countsRef ≠ r) :
    (AggregateR hp s v a).1.get r = hp.get r ∧
    r < (AggregateR hp s v a).1.arrs.length ∧
    ∀ ab ∈ (AggregateR hp s v a).2.values, ab.2.countsRef ≠ r := by
  unfold AggregateR
  cases hg : assocGet s.values a with
  | some b =>
      have hbr : b.countsRef ≠ r := hmem (a, b) (assocGet_mem _ _ _ hg)
      simp only [binR]
      refine ⟨SliceHeap.get_put_ne _ _ _ _ (Ne.symm hbr), ?_, ?_⟩
      · simpa [SliceHeap.put] using hr
      · intro ab hab
        rcases mem_assocSet _ _ _ _ hab with hm | hm
        · exact hmem ab hm
        · rw [hm]
          exact hbr
  | none =>
      simp only [binR, SliceHeap.alloc]
      have hget : ∀ w : List Nat,
          ((SliceHeap.mk (hp.arrs ++ [List.replicate (s.bounds.length + 1) 0])).put
            hp.arrs.length w).get r =
          (SliceHeap.mk (hp.arrs ++ [List.replicate (s.bounds.length + 1) 0])).get r :=
        fun w => SliceHeap.get_put_ne _ _ _ w (by omega)
      refine ⟨?_, ?_, ?_⟩
      · rw [hget]
        exact SliceHeap.get_append hp r _ hr
      · simp [SliceHeap.put]
        omega
      · intro ab hab
        rcases List.mem_append.mp hab with hm | hm
        · exact hmem ab hm
        · rw [List.mem_singleton.mp hm]
          simp only
          omega

theorem aggFoldR_untouched : ∀ (calls : List (ℚ × Nat)) (hp : SliceHeap)
    (s : histValuesR) (r : Nat),
    r < hp.arrs.length → (∀ ab ∈ s.values, ab.2.countsRef ≠ r) →
    (aggFoldR hp s calls).1.get r = hp.get r := by
  intro calls
  induction calls with
  | nil => intro hp s r _ _; rfl
  | cons c rest ih =>
      intro hp s r hr hmem
      obtain ⟨h1, h2, h3⟩ := aggregateR_untouched hp s c.1 c.2 r hr hmem
      have hrest := ih (AggregateR hp s c.1 c.2).1 (AggregateR hp s c.1 c.2).2 r h2 h3
      calc (aggFoldR hp s (c :: rest)).1.get r
          = (aggFoldR (AggregateR hp s c.1 c.2).1 (AggregateR hp s c.1 c.2).2 rest).1.get r :=
            rfl
        _ = (AggregateR hp s c.1 c.2).1.get r := hrest
        _ = hp.get r := h1

theorem snapCopy_arrs (st t : Nat) (nmm : Bool) (bounds : List ℚ) :
    ∀ (l : List (Nat × bucketsR)) (hp : SliceHeap),
      ∃ ext, (snapCopy st t nmm bounds hp l).1.arrs = hp.arrs ++ ext := by
  intro l
  induction l with
  | nil => intro hp; exact ⟨[], by simp [snapCopy]⟩
  | cons ab rest ih =>
      intro hp
      obtain ⟨ext, hext⟩ := ih ⟨hp.arrs ++ [hp.get ab.2.countsRef]⟩
      exact ⟨[hp.get ab.2.countsRef] ++ ext,
        by simp only [snapCopy, SliceHeap.alloc]; simp [hext]⟩

theorem snapCopy_refs (st t : Nat) (nmm : Bool) (bounds : List ℚ) :
    ∀ (l : List (Nat × bucketsR)) (hp : SliceHeap),
      ∀ dp ∈ (snapCopy st t nmm bounds hp l).2,
        hp.arrs.length ≤ dp.bucketCountsRef ∧
        dp.bucketCountsRef < (snapCopy st t nmm bounds hp l).1.arrs.length := by
  intro l
  induction l with
  | nil => intro hp dp hdp; simp [snapCopy] at hdp
  | cons ab rest ih =>
      intro hp dp hdp
      have hdp' : dp = histDataPointR ab.1 ab.2 st t bounds nmm hp.arrs.length ∨
          dp ∈ (snapCopy st t nmm bounds ⟨hp.arrs ++ [hp.get ab.2.countsRef]⟩ rest).2 := by
        simpa [snapCopy, SliceHeap.alloc] using hdp
      have hfst : (snapCopy st t nmm bounds hp (ab :: rest)).1 =
          (snapCopy st t nmm bounds ⟨hp.arrs ++ [hp.get ab.2.countsRef]⟩ rest).1 := by
        simp [snapCopy, SliceHeap.alloc]
      obtain ⟨ext, hext⟩ :=
        snapCopy_arrs st t nmm bounds rest ⟨hp.arrs ++ [hp.get ab.2.countsRef]⟩
      rcases hdp' with hm | hm
      · subst hm
        constructor
        · exact le_refl _
        · rw [hfst, hext]
          simp only [histDataPointR, List.length_append, List.length_cons, List.length_nil]
          omega
      · obtain ⟨h1, h2⟩ := ih ⟨hp.arrs ++ [hp.get ab.2.countsRef]⟩ dp hm
        constructor
        · simp only [List.length_append, List.length_cons, List.length_nil] at h1
          omega
        · rw [hfst]
          exact h2

/-- C3 amended: cumulative snapshots duplicate each bucket-count slice —
every returned slice reference is fresh, distinct from every accumulator's
reference — so mutating a returned slice leaves the internal accumulator
state (as observed by a later snapshot) unchanged. Delta snapshots hand out
the accumulator's own slice without copying (the original claim's
"independent duplicate of internal storage" fails there, see the
counterexample), but delete every store entry and leave the heap untouched,
so the same observable consequences hold: no returned reference remains
reachable from the store, and subsequent `Aggregate` calls never write
through a reference outside the store, leaving already-returned data points
unchanged. -/
theorem snapshot_defensive_copy (c : cumulativeHistogramR) (d : deltaHistogramR)
    (hp hq : SliceHeap) (t : Nat)
    (hwfc : ∀ ab ∈ c.hist.values, ab.2.countsRef < hp.arrs.length)
    (hwfd : ∀ ab ∈ d.hist.values, ab.2.countsRef < hq.arrs.length) :
    ((c.Aggregation hp t).2.1 = c ∧
      ∀ hg : HistogramR, (c.Aggregation hp t).1 = some hg →
        ∀ dp ∈ hg.dataPoints,
          dp.bucketCountsRef < (c.Aggregation hp t).2.2.arrs.length ∧
          (∀ ab ∈ c.hist.values, ab.2.countsRef ≠ dp.bucketCountsRef) ∧
          ∀ m : List Nat,
            obsCounts (((c.Aggregation hp t).2.2).put dp.bucketCountsRef m) c.hist =
              obsCounts ((c.Aggregation hp t).2.2) c.hist) ∧
    ((d.Aggregation hq t).2.1.hist.values = [] ∧
      (d.Aggregation hq t).2.2 = hq ∧
      ∀ hg : HistogramR, (d.Aggregation hq t).1 = some hg →
        ∀ dp ∈ hg.dataPoints, dp.bucketCountsRef < hq.arrs.length) ∧
    (∀ (calls : List (ℚ × Nat)) (r : Nat) (hp2 : SliceHeap) (s2 : histValuesR),
      r < hp2.arrs.length → (∀ ab ∈ s2.values, ab.2.countsRef ≠ r) →
      (aggFoldR hp2 s2 calls).1.get r = hp2.get r) := by
  refine ⟨⟨?_, ?_⟩, ⟨?_, ?_, ?_⟩, ?_⟩
  · rw [cumulativeHistogramR.Aggregation]
    split <;> rfl
  · intro hg hhg dp hdp
    by_cases hc : c.hist.values.length = 0
    · rw [cumulativeHistogramR.Aggregation, if_pos hc] at hhg
      cases hhg
    · rw [cumulativeHistogramR.Aggregation, if_neg hc] at hhg
      simp only [cumulativeHistogramR.Aggregation, if_neg hc]
      injection hhg with hhg
      subst hhg
      simp only at hdp
      obtain ⟨hle, hlt⟩ :=
        snapCopy_refs c.start t c.noMinMax c.hist.bounds c.hist.values hp dp hdp
      have hne : ∀ ab ∈ c.hist.values, ab.2.countsRef ≠ dp.bucketCountsRef := by
        intro ab hab
        have := hwfc ab hab
        omega
      refine ⟨hlt, hne, ?_⟩
      intro m
      unfold obsCounts
      refine List.map_congr_left ?_
      intro ab hab
      rw [SliceHeap.get_put_ne _ _ _ _ (hne ab hab)]
  · rw [deltaHistogramR.Aggregation]
    split
    · next hcond =>
        simpa using List.length_eq_zero.mp hcond
    · rfl
  · rw [deltaHistogramR.Aggregation]
    split <;> rfl
  · intro hg hhg dp hdp
    by_cases hc : d.hist.values.length = 0
    · rw [deltaHistogramR.Aggregation, if_pos hc] at hhg
      cases hhg
    · rw [deltaHistogramR.Aggregation, if_neg hc] at hhg
      injection hhg with hhg
      subst hhg
      simp only at hdp
      obtain ⟨ab, hab, rfl⟩ := List.mem_map.mp hdp
      exact hwfd ab hab
  · exact fun calls r hp2 s2 hr hm => aggFoldR_untouched calls hp2 s2 r hr hm

/-- A heap with no slices yet. -/
def heapEx : SliceHeap := ⟨[]⟩

/-- One `Aggregate(1, attr 7)` on a fresh reference-aware store with
boundaries `[0]`. -/
def stepExR : SliceHeap × histValuesR := AggregateR heapEx (newHistValuesR [0]) 1 7

/-- The delta aggregator holding that one accumulated value. -/
def deltaExR : deltaHistogramR := { hist := stepExR.2, noMinMax := false, start := 0 }

/-- Its snapshot at time 1. -/
def snapExR : Option HistogramR × deltaHistogramR × SliceHeap :=
  deltaExR.Aggregation stepExR.1 1

/-- The matching cumulative aggregator over the same store. -/
def cumulExR : cumulativeHistogramR := { hist := stepExR.2, noMinMax := false, start := 0 }

/-- C3 counterexample: in the delta snapshot the returned data point's
bucket-count slice is the very reference (heap slot 0) held by the internal
accumulator — a reference to internal accumulator storage, not an independent
duplicate. Slot 0 really is the accumulator's storage: it holds the binned
counts `[0, 1]`. -/
theorem delta_snapshot_aliases_cex :
    (snapExR.1.map fun hg => hg.dataPoints.map fun dp => dp.bucketCountsRef) = some [0] ∧
    deltaExR.hist.values.map (fun ab => ab.2.countsRef) = [0] ∧
    stepExR.1.get 0 = [0, 1] :=
  ⟨rfl, rfl, rfl⟩

theorem snapshot_defensive_copy_witness :
    (aggFoldR snapExR.2.2 snapExR.2.1.hist [(2, 9)]).1.get 0 = snapExR.2.2.get 0 := by
  refine (snapshot_defensive_copy cumulExR deltaExR stepExR.1 stepExR.1 1 ?_ ?_).2.2
    [(2, 9)] 0 snapExR.2.2 snapExR.2.1.hist ?_ ?_
  · decide
  · decide
  · decide
  · decide

-- ## Measurement pipeline (claim C8)

/-- The calling `context.Context`, reduced to what the pipeline reads from
it: `ctx.Err()`, `none` for a live context and `some e` for a
canceled/expired one. -/
structure Context where
  err : Option String
deriving DecidableEq

/-- An `aggregate.Measure[int64]`: an opaque accumulate operation, modelled
as a transformer of an abstract aggregator-world state `σ`. -/
def MeasureI (σ : Type) : Type := Context → Int → Nat → σ → σ

/-- An `aggregate.Measure[float64]`. -/
def MeasureF (σ : Type) : Type := Context → ℚ → Nat → σ → σ

/-- The `int64Inst` struct: the registered measures, in registration order. -/
structure int64Inst (σ : Type) where
  measures : List (MeasureI σ)

/-- `int64Inst.aggregate`: drop the measurement when the context is already
canceled/expired, otherwise invoke every registered measure in order with the
same value and attribute set. -/
def int64Inst.aggregate {σ : Type} (i : int64Inst σ) (ctx : Context) (val : Int)
    (s : Nat) (w : σ) : σ :=
  if (ctx.err).isSome then w
  else i.measures.foldl (fun acc f => f ctx val s acc) w

/-- `int64Inst.Add` forwards to `aggregate` (the option handling that builds
the attribute set is outside this model). -/
def int64Inst.Add {σ : Type} (i : int64Inst σ) (ctx : Context) (val : Int)
    (s : Nat) (w : σ) : σ :=
  i.aggregate ctx val s w

/-- `int64Inst.Record` forwards to `aggregate`. -/
def int64Inst.Record {σ : Type} (i : int64Inst σ) (ctx : Context) (val : Int)
    (s : Nat) (w : σ) : σ :=
  i.aggregate ctx val s w

/-- The `float64Inst` struct. -/
structure float64Inst (σ : Type) where
  measures : List (MeasureF σ)

/-- `float64Inst.aggregate`. -/
def float64Inst.aggregate {σ : Type} (i : float64Inst σ) (ctx : Context) (val : ℚ)
    (s : Nat) (w : σ) : σ :=
  if (ctx.err).isSome then w
  else i.measures.foldl (fun acc f => f ctx val s acc) w

/-- `float64Inst.Add` forwards to `aggregate`. -/
def float64Inst.Add {σ : Type} (i : float64Inst σ) (ctx : Context) (val : ℚ)
    (s : Nat) (w : σ) : σ :=
  i.aggregate ctx val s w

/-- `float64Inst.Record` forwards to `aggregate`. -/
def float64Inst.Record {σ : Type} (i : float64Inst σ) (ctx : Context) (val : ℚ)
    (s : Nat) (w : σ) : σ :=
  i.aggregate ctx val s w

/-- An observing measure: the `k`-th registered aggregator, logging each
invocation it receives (measure index, value, attribute set). -/
def logMeasureI (k : Nat) : MeasureI (List (Nat × Int × Nat)) :=
  fun _ v a log => log ++ [(k, v, a)]

/-- An int64 instrument with `n` observing aggregators registered. -/
def logInstI (n : Nat) : int64Inst (List (Nat × Int × Nat)) :=
  ⟨(List.range n).map logMeasureI⟩

/-- A float64 observing measure. -/
def logMeasureF (k : Nat) : MeasureF (List (Nat × ℚ × Nat)) :=
  fun _ v a log => log ++ [(k, v, a)]

/-- A float64 instrument with `n` observing aggregators registered. -/
def logInstF (n : Nat) : float64Inst (List (Nat × ℚ × Nat)) :=
  ⟨(List.range n).map logMeasureF⟩

theorem logInstI_foldl (vi : Int) (a : Nat) (ctx : Context) :
    ∀ (l : List Nat) (w : List (Nat × Int × Nat)),
      (l.map logMeasureI).foldl (fun acc f => f ctx vi a acc) w =
        w ++ l.map fun k => (k, vi, a) := by
  intro l
  induction l with
  | nil => intro w; simp
  | cons k rest ih =>
      intro w
      simp [logMeasureI, ih]

theorem logInstF_foldl (vf : ℚ) (a : Nat) (ctx : Context) :
    ∀ (l : List Nat) (w : List (Nat × ℚ × Nat)),
      (l.map logMeasureF).foldl (fun acc f => f ctx vf a acc) w =
        w ++ l.map fun k => (k, vf, a) := by
  intro l
  induction l with
  | nil => intro w; simp
  | cons k rest ih =>
      intro w
      simp [logMeasureF, ih]

/-- C8: for `Add`/`Record` on the int64 or float64 instrument, a context
already canceled or expired (`err = some e`) drops the measurement entirely —
the aggregator world is untouched, no measure runs — while a live context
invokes each of the `n` registered aggregators' accumulate operations exactly
once, in registration order, with the same value and attribute set, as the
observing instruments record. -/
theorem aggregate_context_gate {σ : Type} (i : int64Inst σ) (j : float64Inst σ)
    (vi : Int) (vf : ℚ) (a : Nat) (w : σ) (n : Nat) :
    (∀ e : String, i.Add { err := some e } vi a w = w) ∧
    (∀ e : String, i.Record { err := some e } vi a w = w) ∧
    (∀ e : String, j.Add { err := some e } vf a w = w) ∧
    (∀ e : String, j.Record { err := some e } vf a w = w) ∧
    ((logInstI n).aggregate { err := none } vi a [] =
      (List.range n).map fun k => (k, vi, a)) ∧
    ((logInstF n).aggregate { err := none } vf a [] =
      (List.range n).map fun k => (k, vf, a)) := by
  refine ⟨fun e => rfl, fun e => rfl, fun e => rfl, fun e => rfl, ?_, ?_⟩
  · simp [int64Inst.aggregate, logInstI, logInstI_foldl]
  · simp [float64Inst.aggregate, logInstF, logInstF_foldl]

-- ## Observable registration guard (claim C9)

/-- `instrumentation.Scope`. -/
structure Scope where
  name : String
  version : String
  schemaURL : String
deriving DecidableEq

/-- The `observable` struct, with its measures over an abstract measure type
`σ` (only their number matters to registration). -/
structure observable (σ : Type) where
  name : String
  description : String
  kind : Nat
  unit : String
  scope : Scope
  measures : List σ

/-- `errEmptyAgg`. -/
def errEmptyAgg : String := "no aggregators for observable instrument"

/-- The mismatch message `fmt.Errorf` formats, naming the observable, its
creation scope's Meter and the registering scope's Meter. -/
def scopeMismatchMsg (obsName creationMeter registeringMeter : String) : String :=
  "invalid registration: observable \"" ++ obsName ++ "\" from Meter \"" ++
    creationMeter ++ "\", registered with Meter \"" ++ registeringMeter ++ "\""

/-- `observable.registerable(scope)`: `errEmptyAgg` when there are no
measures; a scope-mismatch error naming both Meters when the registering
scope differs from the creation scope; otherwise no error (`none`). -/
def observable.registerable {σ : Type} (o : observable σ) (scope : Scope) : Option String :=
  if o.measures.length = 0 then some errEmptyAgg
  else if scope ≠ o.scope then
    some (scopeMismatchMsg o.name o.scope.name scope.name)
  else none

/-- C9: `registerable` fails with the "no aggregators" condition whenever the
observable has zero configured aggregators; with at least one aggregator and
a registering scope different from the creation scope it fails with the
descriptive mismatch error naming both scopes' Meters; and with at least one
aggregator and matching scopes it succeeds (no error). -/
theorem registerable_guard {σ : Type} (o : observable σ) (s : Scope) :
    (o.measures = [] → o.registerable s = some errEmptyAgg) ∧
    (o.measures ≠ [] → s ≠ o.scope →
      o.registerable s = some (scopeMismatchMsg o.name o.scope.name s.name)) ∧
    (o.measures ≠ [] → s = o.scope → o.registerable s = none) := by
  refine ⟨?_, ?_, ?_⟩
  · intro h
    simp [observable.registerable, h]
  · intro h1 h2
    rw [observable.registerable,
      if_neg (fun hl => h1 (List.length_eq_zero.mp hl)), if_pos h2]
  · intro h1 h2
    rw [observable.registerable,
      if_neg (fun hl => h1 (List.length_eq_zero.mp hl)), if_neg (fun hn => hn h2)]

/-- A scope for the registration witnesses. -/
def scopeEx : Scope := { name := "m1", version := "v1", schemaURL := "u1" }

/-- A second, different scope. -/
def scopeEx2 : Scope := { name := "m2", version := "v1", schemaURL := "u1" }

/-- An observable with no aggregators, created under `scopeEx`. -/
def obsEmptyEx : observable Unit :=
  { name := "obs", description := "", kind := 4, unit := "", scope := scopeEx
    measures := [] }

/-- An observable with one aggregator, created under `scopeEx`. -/
def obsEx : observable Unit :=
  { name := "obs", description := "", kind := 4, unit := "", scope := scopeEx
    measures := [()] }

theorem registerable_guard_witness :
    obsEmptyEx.registerable scopeEx = some errEmptyAgg ∧
    obsEx.registerable scopeEx2 =
      some (scopeMismatchMsg obsEx.name obsEx.scope.name scopeEx2.name) ∧
    obsEx.registerable scopeEx = none :=
  ⟨(registerable_guard obsEmptyEx scopeEx).1 rfl,
   (registerable_guard obsEx scopeEx2).2.1 (by simp [obsEx]) (by decide),
   (registerable_guard obsEx scopeEx).2.2 (by simp [obsEx]) rfl⟩
